import Mathlib

/-!
# TransportOptimization.js: grouping, export and session state

A shallow embedding of `src/frontend/src/components/TransportOptimization.js`.

* `JSVal`, `Stop`, `Route`: the JSON data the component receives.
* `Groups`: the plain object built by the `reduce` of `handleExport` (and of the
  render), with the property lookup, assignment and enumeration rules of
  JavaScript objects.
* `handleExport`: the export handler, up to the text handed to the `Blob`.
* `State`, `submit`, `settle`, `handleOptimize`: the `useState` cells and the two
  halves of the asynchronous `handleOptimize` (before and after the `await`).
-/

namespace TransportOptimization

/-! ## JavaScript values -/

/-- A primitive JavaScript value as it arrives in a JSON body (`undefined` stands for
an absent field).  Numbers are the whole numbers a double holds exactly and prints as
a decimal numeral; the rendering of a fractional or very large double is
floating-point formatting and is not modelled. -/
inductive JSVal where
  | undefined
  | null
  | bool (b : Bool)
  | num (n : Int)
  | str (s : String)
  deriving DecidableEq, Repr

namespace JSVal

/-- `ToString`, applied when a value is used as a property key. -/
def toStr : JSVal → String
  | undefined => "undefined"
  | null => "null"
  | bool true => "true"
  | bool false => "false"
  | num n => toString n
  | str s => s

/-- `ToBoolean`, the test behind `if (v)`, `!v` and `v && ...`. -/
def truthy : JSVal → Bool
  | undefined => false
  | null => false
  | bool b => b
  | num n => n != 0
  | str s => s != ""

/-- The text `Array.prototype.join` writes for one element: `undefined` and `null`
give the empty string, every other value its `ToString`. -/
def joinText : JSVal → String
  | undefined => ""
  | null => ""
  | v => v.toStr

end JSVal

/-- `Array.prototype.join(sep)` on the texts of the elements. -/
def joinWith (sep : String) : List String → String
  | [] => ""
  | [a] => a
  | a :: b :: rest => a ++ sep ++ joinWith sep (b :: rest)

/-- The exceptions the handlers can raise. -/
inductive JSError where
  | typeError
  deriving DecidableEq, Repr

deriving instance DecidableEq for Except

/-! ## Stops and routes -/

/-- One element of `route.stops`; the seven fields the component reads. -/
structure Stop where
  from_store : JSVal
  to_store : JSVal
  item : JSVal
  units : JSVal
  distance : JSVal
  cost : JSVal
  time : JSVal
  deriving DecidableEq, Repr

/-- One element of the `results` array. -/
structure Route where
  stops : List Stop
  deriving DecidableEq, Repr

/-- The expression `route.stops[0]?.from_store`: the leading stop's `from_store`, or
`undefined` when the route has no stop. -/
def Route.fromStore (route : Route) : JSVal :=
  match route.stops.head? with
  | some stop => stop.from_store
  | none => JSVal.undefined

/-- The property key under which `groups[fromStore]` reads and writes. -/
def Route.key (route : Route) : String := route.fromStore.toStr

/-! ## The `groups` object -/

/-- The own properties of the object `groups`, in creation order; every value is an
array of stops. -/
abbrev Groups := List (String × List Stop)

/-- The property names a plain object `{}` inherits from `Object.prototype`. -/
def objectPrototypeKeys : List String :=
  ["constructor", "__defineGetter__", "__defineSetter__", "hasOwnProperty",
   "__lookupGetter__", "__lookupSetter__", "isPrototypeOf", "propertyIsEnumerable",
   "toString", "valueOf", "__proto__", "toLocaleString"]

/-- What `groups[k]` evaluates to. -/
inductive Lookup where
  | own (stops : List Stop)
  | inherited
  | missing
  deriving DecidableEq, Repr

/-- A lookup is truthy unless the property is missing: arrays (also empty ones) and
the functions and objects of `Object.prototype` are all truthy. -/
def Lookup.truthy : Lookup → Bool
  | own _ => true
  | inherited => true
  | missing => false

/-- Rule of `groups[k]`: an own property first, then the prototype. -/
def Groups.get (groups : Groups) (k : String) : Lookup :=
  match groups.lookup k with
  | some stops => Lookup.own stops
  | none => if k ∈ objectPrototypeKeys then Lookup.inherited else Lookup.missing

/-- Rule of `groups[k] = v`: an existing own property keeps its place, a new one is
created last.  The reducer assigns only after a falsy lookup, hence never to an
inherited name. -/
def Groups.set (groups : Groups) (k : String) (v : List Stop) : Groups :=
  if (groups.lookup k).isSome then groups.map (fun p => if p.1 = k then (p.1, v) else p)
  else groups ++ [(k, v)]

/-- The callback of `results.reduce` (lines 54-61 and 180-187). -/
def reducer (groups : Groups) (route : Route) : Except JSError Groups :=
  let fromStore := route.key
  let groups1 := if (groups.get fromStore).truthy then groups else groups.set fromStore []
  match groups1.get fromStore with
  | Lookup.own stops => Except.ok (groups1.set fromStore (stops ++ route.stops))
  | _ => Except.error JSError.typeError

/-- Fold of `reducer` from a given accumulator. -/
def reduceFrom : Groups → List Route → Except JSError Groups
  | groups, [] => Except.ok groups
  | groups, route :: rest =>
    match reducer groups route with
    | Except.ok groups1 => reduceFrom groups1 rest
    | Except.error e => Except.error e

/-- The object `groupedResults`: `results.reduce(reducer, {})`. -/
def groupedResults (results : List Route) : Except JSError Groups :=
  reduceFrom [] results

/-! ## Enumeration order of own properties -/

/-- Value of a decimal numeral. -/
def decimalValue (cs : List Char) : Nat :=
  cs.foldl (fun acc c => 10 * acc + (c.toNat - 48)) 0

/-- A canonical numeric string: `0`, or digits without a leading zero. -/
def isCanonicalNumeral : List Char → Bool
  | [] => false
  | [c] => c.isDigit
  | c :: rest => c != '0' && c.isDigit && rest.all Char.isDigit

/-- An array index is a canonical numeric string below `2^32 - 1`. -/
def isArrayIndex (k : String) : Bool :=
  isCanonicalNumeral k.data && decide (decimalValue k.data < 2 ^ 32 - 1)

/-- The numeric value by which array-index keys are ordered. -/
def indexValue (k : String) : Nat := decimalValue k.data

/-- Own property keys as `Object.entries` visits them: the array indices in
ascending numeric order, then the other names in creation order. -/
def ownKeys (groups : Groups) : List String :=
  let keys := groups.map Prod.fst
  (keys.filter isArrayIndex).insertionSort (fun a b => indexValue a ≤ indexValue b)
    ++ keys.filter (fun k => !isArrayIndex k)

/-- `Object.entries(groups)`: each own key with the value stored under it. -/
def entries (groups : Groups) : List (String × List Stop) :=
  (ownKeys groups).map (fun k => (k, (groups.lookup k).getD []))

/-! ## `handleExport` -/

/-- The array `headers` (line 63). -/
def headers : List String :=
  ["From Store", "To Store", "Item", "Units", "Distance (km)", "Cost", "Time (mins)"]

/-- One array pushed onto `rows`. -/
abbrev Row := List JSVal

/-- The data row pushed for one stop (lines 68-76): the group key, then six fields of
the stop. -/
def dataRow (fromStore : String) (stop : Stop) : Row :=
  [JSVal.str fromStore, stop.to_store, stop.item, stop.units, stop.distance, stop.cost,
   stop.time]

/-- The rows pushed by one pass of the `for` loop (lines 66-78): the marker row, a
data row per stop, and an empty row. -/
def groupRows (fromStore : String) (stops : List Stop) : List Row :=
  [JSVal.str ("FROM " ++ fromStore)] :: (stops.map (dataRow fromStore) ++ [[]])

/-- The array `rows` after the loop over the entries. -/
def rows (es : List (String × List Stop)) : List Row :=
  es.flatMap (fun e => groupRows e.1 e.2)

/-- The text `r.join(",")`. -/
def rowText (r : Row) : String := joinWith "," (r.map JSVal.joinText)

/-- The lines of the exported text: the header row, then the text of every row. -/
def exportLines (es : List (String × List Stop)) : List String :=
  joinWith "," headers :: (rows es).map rowText

/-- The content of the `Blob` (line 81). -/
def exportText (es : List (String × List Stop)) : String :=
  joinWith "\n" (exportLines es)

/-- How a call of `handleExport` ends. -/
inductive ExportResult where
  | alerted (msg : String)
  | threw (e : JSError)
  | downloaded (filename : String) (text : String)
  deriving DecidableEq, Repr

/-- The handler `handleExport` (lines 48-89) on an array of routes. -/
def handleExport (results : List Route) : ExportResult :=
  if results.length = 0 then ExportResult.alerted "No results to export."
  else
    match groupedResults results with
    | Except.error e => ExportResult.threw e
    | Except.ok groups =>
      ExportResult.downloaded "grouped_transport_optimization.csv" (exportText (entries groups))

/-! ## `handleOptimize` and the state cells -/

/-- A JavaScript number as `parseFloat` and `parseInt` return it.  The component never
computes with these values. -/
inductive JSNumber where
  | nan
  | posInf
  | negInf
  | finite (q : ℚ)
  deriving DecidableEq

/-- The file picked in the file input. -/
structure CsvFile where
  content : String
  deriving DecidableEq

/-- The value `res.data` of a resolved call: a primitive, an array of routes, or
another object, of which only the `error` property is read (`undefined` when the
object has none, otherwise a primitive). -/
inductive Body where
  | prim (v : JSVal)
  | array (routes : List Route)
  | object (error : JSVal)
  deriving DecidableEq

/-- The `useState` cells of the component (lines 5-10). -/
structure State where
  costRate : JSNumber
  minThreshold : JSNumber
  selectedFile : Option CsvFile
  results : Body
  error : JSVal
  loading : Bool
  deriving DecidableEq

/-- The initial values of the cells. -/
def initialState : State where
  costRate := JSNumber.finite 10
  minThreshold := JSNumber.finite 10
  selectedFile := none
  results := Body.array []
  error := JSVal.str ""
  loading := false

/-- The three fields appended to the form (lines 26-29). -/
structure FormData where
  stock_file : CsvFile
  cost_rate : JSNumber
  min_quantity : JSNumber
  deriving DecidableEq

/-- How `handleOptimize` proceeds up to the `await`: it alerts and returns, or it
updates the cells and posts the form. -/
inductive Submission where
  | alerted (msg : String)
  | posted (s : State) (form : FormData)
  deriving DecidableEq

/-- Lines 18-33 of `handleOptimize`, up to the `await`: the guard on `selectedFile`,
the three setter calls, which take effect together, and the form that is posted. -/
def submit (s : State) : Submission :=
  match s.selectedFile with
  | none => Submission.alerted "Please select a .csv file first."
  | some file =>
    Submission.posted
      { s with loading := true, error := JSVal.str "", results := Body.array [] }
      { stock_file := file, cost_rate := s.costRate, min_quantity := s.minThreshold }

/-- How the awaited `axios.post` ends: the promise rejects (no response, or a status
outside 2xx), or it resolves with a body. -/
inductive PostOutcome where
  | rejected
  | resolved (data : Body)
  deriving DecidableEq

/-- The expression `res.data.error`: reading a property of `undefined` or `null`
throws; other primitives and arrays have no such property. -/
def Body.errorField : Body → Except JSError JSVal
  | Body.prim JSVal.undefined => Except.error JSError.typeError
  | Body.prim JSVal.null => Except.error JSError.typeError
  | Body.prim _ => Except.ok JSVal.undefined
  | Body.array _ => Except.ok JSVal.undefined
  | Body.object e => Except.ok e

/-- Lines 34-45 of `handleOptimize`, after the `await`: the rest of the `try` block,
the `catch` and the `finally`, whose setter calls take effect together. -/
def settle (s : State) (outcome : PostOutcome) : State :=
  let caught : State :=
    { s with error := JSVal.str "Error optimizing transport.", results := Body.array [] }
  let s1 : State :=
    match outcome with
    | PostOutcome.rejected => caught
    | PostOutcome.resolved data =>
      match data.errorField with
      | Except.error _ => caught
      | Except.ok e =>
        if e.truthy then { s with error := e, results := Body.array [] }
        else { s with results := data }
  { s1 with loading := false }

/-- A whole run of `handleOptimize` whose call ends with `outcome`. -/
def handleOptimize (s : State) (outcome : PostOutcome) : State :=
  match submit s with
  | Submission.alerted _ => s
  | Submission.posted s1 _ => settle s1 outcome

/-! ## The session states of the specification -/

/-- The four session states of the specification (section 3). -/
inductive Phase where
  | idle
  | submitting
  | success
  | failure
  deriving DecidableEq, Repr

/-- How the cells `(results, error, loading)` encode a session state, following the
conditions of the render: the spinner shows while `loading`, the message while
`error` is truthy, the tables once `results` is no longer the empty array. -/
def encodes (s : State) : Phase → Prop
  | Phase.idle => s.loading = false ∧ s.error.truthy = false ∧ s.results = Body.array []
  | Phase.submitting =>
    s.loading = true ∧ s.error.truthy = false ∧ s.results = Body.array []
  | Phase.success => s.loading = false ∧ s.error.truthy = false ∧ s.results ≠ Body.array []
  | Phase.failure => s.loading = false ∧ s.error.truthy = true ∧ s.results = Body.array []

/-- The states the component reaches with at most one call outstanding: the inputs
may change at any time, `handleOptimize` posts only while no call is pending, and a
pending call ends with some outcome. -/
inductive Reachable : State → Prop where
  | init : Reachable initialState
  | costRateSet (s : State) (v : JSNumber) : Reachable s → Reachable { s with costRate := v }
  | minThresholdSet (s : State) (v : JSNumber) :
    Reachable s → Reachable { s with minThreshold := v }
  | fileSet (s : State) (f : Option CsvFile) :
    Reachable s → Reachable { s with selectedFile := f }
  | posted (s s1 : State) (form : FormData) :
    Reachable s → s.loading = false → submit s = Submission.posted s1 form → Reachable s1
  | settled (s : State) (outcome : PostOutcome) :
    Reachable s → s.loading = true → Reachable (settle s outcome)

/-! ## The request validity of the specification -/

/-- A finite positive number, the specification's condition on `cost_rate`. -/
def JSNumber.isFinitePositive : JSNumber → Bool
  | JSNumber.finite q => decide (0 < q)
  | _ => false

/-- A finite non-negative integer, the specification's condition on `min_quantity`. -/
def JSNumber.isNonNegInteger : JSNumber → Bool
  | JSNumber.finite q => decide (0 ≤ q) && decide (q.den = 1)
  | _ => false

/-- The request validity of the specification (section 4.1), in its words: a dataset
is present, `cost_rate` is a finite positive number and `min_quantity` a finite
non-negative integer. -/
def specValidRequest (s : State) : Bool :=
  s.selectedFile.isSome && s.costRate.isFinitePositive && s.minThreshold.isNonNegInteger

/-- The invariant behind the four session states: a truthy `error` goes with an empty
`results`, and while `loading` both are cleared. -/
def SessionInv (s : State) : Prop :=
  (s.error.truthy = false ∨ s.results = Body.array [])
    ∧ (s.loading = true → s.error.truthy = false ∧ s.results = Body.array [])

/-! ## Order of first appearance -/

/-- The distinct elements of a list of keys, in order of first appearance. -/
def firstAppearance : List String → List String
  | [] => []
  | k :: ks => k :: (firstAppearance ks).filter (fun x => decide (x ≠ k))

/-- The stops of the routes filed under key `k`, concatenated in list order. -/
def stopsUnder (k : String) (results : List Route) : List Stop :=
  (results.filter (fun r => decide (r.key = k))).flatMap Route.stops

/-- The origins of the leading stops, as property keys, in list order; a route
without stops has none. -/
def leadingOrigins (results : List Route) : List String :=
  results.filterMap (fun r => r.stops.head?.map (fun stop => stop.from_store.toStr))

/-- The number of stops held by the object. -/
def Groups.stopCount (groups : Groups) : Nat :=
  (groups.map (fun e => e.2.length)).sum

/-- The number of stops of a list of routes. -/
def totalStops (results : List Route) : Nat :=
  (results.map (fun r => r.stops.length)).sum

/-! ## Sample data -/

/-- A stop whose fields are strings and whole numbers. -/
def sampleStop (fromStore toStore item : String) (units distance cost time : Int) : Stop where
  from_store := JSVal.str fromStore
  to_store := JSVal.str toStore
  item := JSVal.str item
  units := JSVal.num units
  distance := JSVal.num distance
  cost := JSVal.num cost
  time := JSVal.num time

/-- The first stop of the scenario of section 8 of the specification. -/
def stopAB : Stop := sampleStop "A" "B" "X" 5 10 50 15

/-- The second stop of the scenario of section 8 of the specification. -/
def stopAC : Stop := sampleStop "A" "C" "Y" 2 4 8 6

/-- The two routes of the scenario of section 8 of the specification. -/
def scenarioRoutes : List Route := [{ stops := [stopAB] }, { stops := [stopAC] }]

/-- A stop whose `from_store` is the number `10`. -/
def stopFromNumber : Stop := { stopAB with from_store := JSVal.num 10 }

/-- A stop whose `from_store` is the string `"10"`. -/
def stopFromString : Stop := { stopAC with from_store := JSVal.str "10" }

/-- A route from the number `10` followed by a route from the string `"10"`. -/
def mixedOriginRoutes : List Route :=
  [{ stops := [stopFromNumber] }, { stops := [stopFromString] }]

/-- A route from the store `"10"` followed by a route from the store `"2"`. -/
def indexOriginRoutes : List Route :=
  [{ stops := [sampleStop "10" "B" "X" 5 10 50 15] },
   { stops := [sampleStop "2" "C" "Y" 2 4 8 6] }]

/-- A state in which a file has been picked. -/
def pickedState : State := { initialState with selectedFile := some { content := "sku,qty" } }

/-! ## Re-parsing the export (specification, section 8) -/

/-- The pieces of a character list between the occurrences of `sep`, as `split` with
a one-character separator returns them. -/
def splitChars (sep : Char) : List Char → List (List Char)
  | [] => [[]]
  | c :: cs =>
    if c = sep then [] :: splitChars sep cs
    else
      match splitChars sep cs with
      | [] => [[c]]
      | piece :: pieces => (c :: piece) :: pieces

/-- The pieces of a text between the occurrences of `sep`. -/
def splitText (sep : Char) (text : String) : List String :=
  (splitChars sep text.data).map String.mk

/-- A marker row starts with `FROM` and a blank. -/
def isMarkerRow (line : String) : Bool :=
  decide (line.data.take 5 = ['F', 'R', 'O', 'M', ' '])

/-- The re-parser of the round-trip property of the specification (section 8), in its
words: split the text on newlines, drop the header row, the marker rows and the blank
rows, and split each remaining row on commas.  The source holds no parser. -/
def reparse (text : String) : List (List String) :=
  (((splitText '\n' text).drop 1).filter
    (fun line => decide (line ≠ "") && !isMarkerRow line)).map (splitText ',')

/-- The re-parsed rows of the group of origin `k`: those whose first field is `k`. -/
def recordsOf (k : String) (records : List (List String)) : List (List String) :=
  records.filter (fun fields => decide (fields.head? = some k))

/-- The seven texts under which the export writes a stop filed under its own origin:
the origin as a property key, the six other fields as `join` renders them. -/
def Stop.fieldTexts (stop : Stop) : List String :=
  [stop.from_store.toStr, stop.to_store.joinText, stop.item.joinText, stop.units.joinText,
   stop.distance.joinText, stop.cost.joinText, stop.time.joinText]

/-- A text without a comma and without a newline. -/
def isPlainText (t : String) : Bool :=
  decide (',' ∉ t.data) && decide ('\n' ∉ t.data)

/-- The six fields a data row takes from the stop are plain texts. -/
def Stop.isPlain (stop : Stop) : Bool :=
  isPlainText stop.to_store.joinText && isPlainText stop.item.joinText
    && isPlainText stop.units.joinText && isPlainText stop.distance.joinText
    && isPlainText stop.cost.joinText && isPlainText stop.time.joinText

/-- A group the round trip applies to: its key is a plain text that does not start
like a marker row, and every stop of it comes from the store of the key and has
plain fields. -/
def isPlainGroup (e : String × List Stop) : Bool :=
  isPlainText e.1 && !isMarkerRow e.1
    && e.2.all (fun stop => decide (stop.from_store.toStr = e.1) && stop.isPlain)

/-- A stop whose `to_store` holds a comma. -/
def stopWithComma : Stop := { stopAB with to_store := JSVal.str "B,C" }

/-! ## Theorems -/

/-! ### The grouping `reduce` -/

/-- A key has an own property exactly when it is among the own keys. -/
theorem lookup_isSome_iff (g : Groups) (k : String) :
    (g.lookup k).isSome = true ↔ k ∈ g.map Prod.fst := by
  induction g with
  | nil => simp
  | cons p g ih =>
    obtain ⟨a, b⟩ := p
    rw [List.lookup_cons]
    by_cases h : k = a
    · subst h; simp
    · have h' : (k == a) = false := by simpa using h
      simp [h', ih, h]

/-- Reading after an in-place assignment under `k`. -/
theorem lookup_map_replace (g : Groups) (k k' : String) (v : List Stop) :
    (g.map (fun p => if p.1 = k then (p.1, v) else p)).lookup k'
      = if k' = k then (g.lookup k).map (fun _ => v) else g.lookup k' := by
  induction g with
  | nil => simp
  | cons p g ih =>
    obtain ⟨a, b⟩ := p
    by_cases hak : a = k
    · subst hak
      by_cases hk : k' = a
      · subst hk; simp
      · have h' : (k' == a) = false := by simpa using hk
        simp [List.lookup_cons, h', hk, ih]
    · by_cases hk : k' = k
      · subst hk
        have h' : (k' == a) = false := by simpa using (Ne.symm hak)
        simp [List.lookup_cons, h', hak, ih]
      · by_cases hka : k' = a
        · subst hka; simp [List.lookup_cons, hak, hk]
        · have h' : (k' == a) = false := by simpa using hka
          simp [List.lookup_cons, h', hak, hk, ih]

/-- An in-place assignment keeps the own keys and their order. -/
theorem keys_map_replace (g : Groups) (k : String) (v : List Stop) :
    (g.map (fun p => if p.1 = k then (p.1, v) else p)).map Prod.fst = g.map Prod.fst := by
  induction g with
  | nil => rfl
  | cons p g ih =>
    simp only [List.map_cons, ih]
    split <;> rfl

/-- An in-place assignment under an absent key changes nothing. -/
theorem map_replace_of_lookup_none (g : Groups) (k : String) (v : List Stop)
    (h : g.lookup k = none) :
    g.map (fun p => if p.1 = k then (p.1, v) else p) = g := by
  rw [List.lookup_eq_none_iff] at h
  conv_rhs => rw [← List.map_id g]
  apply List.map_congr_left
  intro p hp
  have := h p hp
  have hne : ¬ p.1 = k := by
    intro e
    simp [e] at this
  simp [hne]

/-- The reducer on a key that is already an own property: the stops are appended in place. -/
theorem reducer_own (g : Groups) (r : Route) (st : List Stop)
    (h : g.lookup r.key = some st) :
    reducer g r
      = Except.ok (g.map (fun p => if p.1 = r.key then (p.1, st ++ r.stops) else p)) := by
  simp [reducer, Groups.get, Groups.set, h, Lookup.truthy]

/-- The reducer on a key that is neither own nor inherited: a property is created last. -/
theorem reducer_new (g : Groups) (r : Route) (h : g.lookup r.key = none)
    (hn : r.key ∉ objectPrototypeKeys) :
    reducer g r = Except.ok (g ++ [(r.key, r.stops)]) := by
  have hmap := map_replace_of_lookup_none g r.key r.stops h
  simp [reducer, Groups.get, Groups.set, h, hn, Lookup.truthy, List.lookup_append, hmap]

/-- The reducer on an inherited name that is not an own property throws. -/
theorem reducer_inherited (g : Groups) (r : Route) (h : g.lookup r.key = none)
    (hn : r.key ∈ objectPrototypeKeys) :
    reducer g r = Except.error JSError.typeError := by
  simp [reducer, Groups.get, h, hn, Lookup.truthy]

/-- The reducer returns on every route whose key is not inherited. -/
theorem reducer_ok_of_not_inherited (g : Groups) (r : Route)
    (hn : r.key ∉ objectPrototypeKeys) : ∃ g1, reducer g r = Except.ok g1 := by
  cases h : g.lookup r.key with
  | none => exact ⟨_, reducer_new g r h hn⟩
  | some st => exact ⟨_, reducer_own g r st h⟩

/-- The own keys after one reducer step. -/
theorem reducer_keys (g g1 : Groups) (r : Route) (h : reducer g r = Except.ok g1) :
    g1.map Prod.fst
      = if r.key ∈ g.map Prod.fst then g.map Prod.fst else g.map Prod.fst ++ [r.key] := by
  cases hl : g.lookup r.key with
  | none =>
    have hmem : r.key ∉ g.map Prod.fst := by
      rw [← lookup_isSome_iff, hl]; simp
    by_cases hn : r.key ∈ objectPrototypeKeys
    · rw [reducer_inherited g r hl hn] at h; cases h
    · rw [reducer_new g r hl hn] at h
      cases h
      simp [hmem]
  | some st =>
    have hmem : r.key ∈ g.map Prod.fst := by
      rw [← lookup_isSome_iff, hl]; rfl
    rw [reducer_own g r st hl] at h
    cases h
    rw [keys_map_replace, if_pos hmem]

/-- The array under each key after one reducer step. -/
theorem reducer_lookup (g g1 : Groups) (r : Route) (h : reducer g r = Except.ok g1)
    (k : String) :
    (g1.lookup k).getD []
      = (g.lookup k).getD [] ++ (if r.key = k then r.stops else []) := by
  cases hl : g.lookup r.key with
  | none =>
    by_cases hn : r.key ∈ objectPrototypeKeys
    · rw [reducer_inherited g r hl hn] at h; cases h
    · rw [reducer_new g r hl hn] at h
      cases h
      rw [List.lookup_append]
      by_cases hk : r.key = k
      · subst hk
        simp [hl]
      · have hk' : (k == r.key) = false := by simpa using (Ne.symm hk)
        cases hg : g.lookup k <;> simp [List.lookup_cons, hk', hk]
  | some st =>
    rw [reducer_own g r st hl] at h
    cases h
    rw [lookup_map_replace]
    by_cases hk : r.key = k
    · subst hk
      simp [hl]
    · have hk' : ¬ k = r.key := fun e => hk e.symm
      simp [hk, hk']

/-- Appending in place under a key that occurs once adds the appended stops to the count. -/
theorem stopCount_map_replace (g : Groups) (k : String) (st extra : List Stop)
    (hnd : (g.map Prod.fst).Nodup) (hl : g.lookup k = some st) :
    Groups.stopCount (g.map (fun p => if p.1 = k then (p.1, st ++ extra) else p))
      = Groups.stopCount g + extra.length := by
  induction g with
  | nil => simp at hl
  | cons p g ih =>
    obtain ⟨a, b⟩ := p
    simp only [List.map_cons, List.nodup_cons] at hnd
    by_cases hak : a = k
    · subst hak
      have hb : b = st := by simpa using hl
      subst hb
      have hnone : g.lookup a = none := by
        cases hg : g.lookup a with
        | none => rfl
        | some v =>
          exfalso
          apply hnd.1
          rw [← lookup_isSome_iff, hg]; rfl
      have hmap := map_replace_of_lookup_none g a (b ++ extra) hnone
      simp only [Groups.stopCount, List.map_cons, if_true, List.sum_cons, List.length_append]
      simp only [Groups.stopCount] at hmap ⊢
      rw [hmap]
      omega
    · have hka : (k == a) = false := by simpa using (Ne.symm hak)
      have hl' : g.lookup k = some st := by simpa [List.lookup_cons, hka] using hl
      have := ih hnd.2 hl'
      simp only [Groups.stopCount, List.map_cons, if_neg hak, List.sum_cons] at this ⊢
      omega

/-- One reducer step adds the stops of the route to the count. -/
theorem reducer_stopCount (g g1 : Groups) (r : Route) (h : reducer g r = Except.ok g1)
    (hnd : (g.map Prod.fst).Nodup) :
    g1.stopCount = g.stopCount + r.stops.length := by
  cases hl : g.lookup r.key with
  | none =>
    by_cases hn : r.key ∈ objectPrototypeKeys
    · rw [reducer_inherited g r hl hn] at h; cases h
    · rw [reducer_new g r hl hn] at h
      cases h
      simp [Groups.stopCount]
  | some st =>
    rw [reducer_own g r st hl] at h
    cases h
    exact stopCount_map_replace g r.key st r.stops hnd hl

/-- One reducer step keeps the own keys distinct. -/
theorem reducer_nodup (g g1 : Groups) (r : Route) (h : reducer g r = Except.ok g1)
    (hnd : (g.map Prod.fst).Nodup) : (g1.map Prod.fst).Nodup := by
  rw [reducer_keys g g1 r h]
  split
  · exact hnd
  · rename_i hmem
    rw [List.nodup_append]
    refine ⟨hnd, List.nodup_singleton _, ?_⟩
    intro x hx hx'
    simp only [List.mem_singleton] at hx'
    subst hx'
    exact hmem hx

/-- First appearance commutes with filtering. -/
theorem firstAppearance_filter (p : String → Bool) (l : List String) :
    firstAppearance (l.filter p) = (firstAppearance l).filter p := by
  induction l with
  | nil => rfl
  | cons k ks ih =>
    cases hp : p k with
    | true =>
      rw [List.filter_cons, if_pos hp]
      simp only [firstAppearance, ih, List.filter_filter]
      rw [List.filter_cons, if_pos hp, List.filter_filter]
      congr 1
      apply List.filter_congr
      intro x _
      exact Bool.and_comm _ _
    | false =>
      rw [List.filter_cons, if_neg (by simp [hp])]
      simp only [firstAppearance, ih]
      rw [List.filter_cons, if_neg (by simp [hp]), List.filter_filter]
      apply List.filter_congr
      intro x _
      by_cases hx : x = k
      · subst hx; simp [hp]
      · simp [hx]

/-- First appearance keeps every element. -/
theorem mem_firstAppearance (x : String) (l : List String) :
    x ∈ firstAppearance l ↔ x ∈ l := by
  induction l with
  | nil => simp [firstAppearance]
  | cons k ks ih =>
    simp only [firstAppearance, List.mem_cons, List.mem_filter, ih, decide_eq_true_eq]
    constructor
    · rintro (h | ⟨h, _⟩)
      · exact Or.inl h
      · exact Or.inr h
    · intro h
      by_cases hx : x = k
      · exact Or.inl hx
      · rcases h with h | h
        · exact Or.inl h
        · exact Or.inr ⟨h, hx⟩

/-- A fold that returns has returned on its first step. -/
theorem reduceFrom_cons_ok (g g' : Groups) (r : Route) (rs : List Route)
    (h : reduceFrom g (r :: rs) = Except.ok g') :
    ∃ g1, reducer g r = Except.ok g1 ∧ reduceFrom g1 rs = Except.ok g' := by
  simp only [reduceFrom] at h
  cases hr : reducer g r with
  | error e => rw [hr] at h; cases h
  | ok g1 => rw [hr] at h; exact ⟨g1, rfl, h⟩

/-- The fold returns when no route is keyed by an inherited name. -/
theorem reduceFrom_ok (rs : List Route) (g : Groups)
    (hn : ∀ r ∈ rs, r.key ∉ objectPrototypeKeys) : ∃ g', reduceFrom g rs = Except.ok g' := by
  induction rs generalizing g with
  | nil => exact ⟨g, rfl⟩
  | cons r rs ih =>
    obtain ⟨g1, h1⟩ := reducer_ok_of_not_inherited g r (hn r (List.mem_cons_self _ _))
    obtain ⟨g', h'⟩ := ih g1 (fun x hx => hn x (List.mem_cons_of_mem _ hx))
    exact ⟨g', by simp only [reduceFrom, h1, h']⟩

/-- The own keys after the fold: the old ones, then the new ones in order of first appearance. -/
theorem reduceFrom_keys (rs : List Route) (g g' : Groups)
    (h : reduceFrom g rs = Except.ok g') :
    g'.map Prod.fst
      = g.map Prod.fst
        ++ firstAppearance ((rs.map Route.key).filter (fun k => decide (k ∉ g.map Prod.fst))) := by
  induction rs generalizing g with
  | nil =>
    simp only [reduceFrom] at h
    cases h
    simp [firstAppearance]
  | cons r rs ih =>
    obtain ⟨g1, h1, h2⟩ := reduceFrom_cons_ok g g' r rs h
    rw [ih g1 h2, reducer_keys g g1 r h1]
    by_cases hmem : r.key ∈ g.map Prod.fst
    · rw [if_pos hmem, List.map_cons, List.filter_cons, if_neg (by simpa using hmem)]
    · rw [if_neg hmem, List.map_cons, List.filter_cons, if_pos (by simpa using hmem)]
      simp only [firstAppearance, List.append_assoc, List.singleton_append]
      congr 2
      rw [← firstAppearance_filter]
      congr 1
      rw [List.filter_filter]
      apply List.filter_congr
      intro x _
      by_cases hx : x = r.key
      · subst hx; simp
      · by_cases hg : x ∈ g.map Prod.fst <;> simp [hx, hg]

/-- The stops filed under `k`, one route at a time. -/
theorem stopsUnder_cons (k : String) (r : Route) (rs : List Route) :
    stopsUnder k (r :: rs) = (if r.key = k then r.stops else []) ++ stopsUnder k rs := by
  by_cases h : r.key = k <;> simp [stopsUnder, List.filter_cons, h]

/-- The array under each key after the fold. -/
theorem reduceFrom_lookup (rs : List Route) (g g' : Groups)
    (h : reduceFrom g rs = Except.ok g') (k : String) :
    (g'.lookup k).getD [] = (g.lookup k).getD [] ++ stopsUnder k rs := by
  induction rs generalizing g with
  | nil =>
    simp only [reduceFrom] at h
    cases h
    simp [stopsUnder]
  | cons r rs ih =>
    obtain ⟨g1, h1, h2⟩ := reduceFrom_cons_ok g g' r rs h
    rw [ih g1 h2, reducer_lookup g g1 r h1 k, stopsUnder_cons, List.append_assoc]

/-- The fold adds the stops of the routes to the count. -/
theorem reduceFrom_stopCount (rs : List Route) (g g' : Groups)
    (h : reduceFrom g rs = Except.ok g') (hnd : (g.map Prod.fst).Nodup) :
    g'.stopCount = g.stopCount + totalStops rs := by
  induction rs generalizing g with
  | nil =>
    simp only [reduceFrom] at h
    cases h
    simp [totalStops]
  | cons r rs ih =>
    obtain ⟨g1, h1, h2⟩ := reduceFrom_cons_ok g g' r rs h
    rw [ih g1 h2 (reducer_nodup g g1 r h1 hnd), reducer_stopCount g g1 r h1 hnd]
    simp only [totalStops, List.map_cons, List.sum_cons]
    omega

/-- The own keys of `groupedResults`, in creation order, are the route keys in order of first appearance. -/
theorem groupedResults_keys (results : List Route) (groups : Groups)
    (h : groupedResults results = Except.ok groups) :
    groups.map Prod.fst = firstAppearance (results.map Route.key) := by
  have := reduceFrom_keys results [] groups h
  simpa using this

/-- The key of a route with a leading stop. -/
theorem key_eq_of_head (r : Route) (stop : Stop) (h : r.stops.head? = some stop) :
    r.key = stop.from_store.toStr := by
  simp [Route.key, Route.fromStore, h]

/-- When every route has a stop, the route keys are the leading origins. -/
theorem keys_eq_leadingOrigins (results : List Route) (hstops : ∀ r ∈ results, r.stops ≠ []) :
    results.map Route.key = leadingOrigins results := by
  induction results with
  | nil => rfl
  | cons r rs ih =>
    have hr := hstops r (List.mem_cons_self _ _)
    have ih' := ih (fun x hx => hstops x (List.mem_cons_of_mem _ hx))
    cases hs : r.stops with
    | nil => exact absurd hs hr
    | cons stop rest =>
      have hk : r.key = stop.from_store.toStr := key_eq_of_head r stop (by rw [hs]; rfl)
      simp only [leadingOrigins, List.map_cons, List.filterMap_cons, hs, List.head?_cons,
        Option.map_some']
      rw [hk, ih']
      rfl

/-- Claim C1, as stated, fails: property keys are strings, so the number `10` and the
string `"10"` name the same group.  For a route from the number `10` followed by a
route from the string `"10"`, the group read under the origin `10` holds the stops of
both routes, although the first route alone has a leading `from_store` equal to the
number `10`. -/
theorem numeric_and_string_origin_share_group :
    groupedResults mixedOriginRoutes
        = Except.ok [("10", [stopFromNumber, stopFromString])]
      ∧ Groups.get [("10", [stopFromNumber, stopFromString])] (JSVal.num 10).toStr
        = Lookup.own [stopFromNumber, stopFromString]
      ∧ (mixedOriginRoutes.filter (fun r => decide (r.fromStore = JSVal.num 10))).flatMap
          Route.stops = [stopFromNumber] := by
  decide

/-- Claim C1, amended: for every route list in which every route has at least one
stop and no route is keyed by a name inherited from `Object.prototype`, the reduce
returns an object that, under the string form of each leading origin, holds exactly
the stops of the routes with that key, concatenated in list order; every own key is
the string form of some leading origin; and the object holds as many stops as the
list. -/
theorem grouping_by_origin_key (results : List Route)
    (hstops : ∀ r ∈ results, r.stops ≠ [])
    (hnames : ∀ r ∈ results, r.key ∉ objectPrototypeKeys) :
    ∃ groups, groupedResults results = Except.ok groups
      ∧ (∀ r ∈ results, groups.get r.key = Lookup.own (stopsUnder r.key results))
      ∧ (∀ k ∈ groups.map Prod.fst, k ∈ leadingOrigins results)
      ∧ groups.stopCount = totalStops results := by
  obtain ⟨groups, hg⟩ := reduceFrom_ok results [] hnames
  have hkeys := groupedResults_keys results groups hg
  refine ⟨groups, hg, ?_, ?_, ?_⟩
  · intro r hr
    have hmem : r.key ∈ groups.map Prod.fst := by
      rw [hkeys, mem_firstAppearance]
      exact List.mem_map_of_mem _ hr
    have hlook := reduceFrom_lookup results [] groups hg r.key
    rw [← lookup_isSome_iff] at hmem
    cases hl : groups.lookup r.key with
    | none => rw [hl] at hmem; cases hmem
    | some v =>
      rw [hl] at hlook
      simp only [Option.getD_some, List.lookup_nil, Option.getD_none, List.nil_append] at hlook
      simp [Groups.get, hl, hlook]
  · intro k hk
    rw [hkeys, mem_firstAppearance, keys_eq_leadingOrigins results hstops] at hk
    exact hk
  · have := reduceFrom_stopCount results [] groups hg (by simp)
    simpa [Groups.stopCount] using this

/-- Witness of C1 on the two routes of the scenario of section 8. -/
theorem grouping_by_origin_key_witness :
    ∃ groups, groupedResults scenarioRoutes = Except.ok groups
      ∧ (∀ r ∈ scenarioRoutes, groups.get r.key = Lookup.own (stopsUnder r.key scenarioRoutes))
      ∧ (∀ k ∈ groups.map Prod.fst, k ∈ leadingOrigins scenarioRoutes)
      ∧ groups.stopCount = totalStops scenarioRoutes :=
  grouping_by_origin_key scenarioRoutes (by decide) (by decide)

/-- Claim C2, as stated, fails: for a route from `"10"` followed by a route from
`"2"`, `Object.entries` visits the key `2` before the key `10`, while the order of
first appearance is `10`, `2`. -/
theorem index_keys_enumerated_ascending :
    (groupedResults indexOriginRoutes).map (fun groups => (entries groups).map Prod.fst)
        = Except.ok ["2", "10"]
      ∧ firstAppearance (leadingOrigins indexOriginRoutes) = ["10", "2"] := by
  decide

/-- Claim C2, amended: for every route list in which every route has at least one
stop and no route is keyed by a name inherited from `Object.prototype`,
`Object.entries` visits first the keys that are array indices, in ascending numeric
order, and then the other keys in order of first appearance among the leading
origins; when no key is an array index the whole order is that of first
appearance. -/
theorem entries_key_order (results : List Route)
    (hstops : ∀ r ∈ results, r.stops ≠ [])
    (hnames : ∀ r ∈ results, r.key ∉ objectPrototypeKeys) :
    ∃ groups, groupedResults results = Except.ok groups
      ∧ (entries groups).map Prod.fst
          = ((firstAppearance (leadingOrigins results)).filter isArrayIndex).insertionSort
              (fun a b => indexValue a ≤ indexValue b)
            ++ (firstAppearance (leadingOrigins results)).filter (fun k => !isArrayIndex k)
      ∧ ((∀ k ∈ leadingOrigins results, isArrayIndex k = false) →
          (entries groups).map Prod.fst = firstAppearance (leadingOrigins results)) := by
  obtain ⟨groups, hg⟩ := reduceFrom_ok results [] hnames
  have hkeys := groupedResults_keys results groups hg
  rw [keys_eq_leadingOrigins results hstops] at hkeys
  have hentries : (entries groups).map Prod.fst = ownKeys groups := by
    simp [entries, Function.comp_def]
  refine ⟨groups, hg, ?_, ?_⟩
  · rw [hentries, ownKeys, hkeys]
  · intro hidx
    rw [hentries, ownKeys, hkeys]
    have hnone : (firstAppearance (leadingOrigins results)).filter isArrayIndex = [] := by
      rw [List.filter_eq_nil_iff]
      intro k hk
      rw [mem_firstAppearance] at hk
      simp [hidx k hk]
    have hall : (firstAppearance (leadingOrigins results)).filter (fun k => !isArrayIndex k)
        = firstAppearance (leadingOrigins results) := by
      rw [List.filter_eq_self]
      intro k hk
      rw [mem_firstAppearance] at hk
      simp [hidx k hk]
    simp only [hnone, hall, List.insertionSort, List.nil_append]

/-- Witness of C2 on the two routes of the scenario of section 8. -/
theorem entries_key_order_witness :
    ∃ groups, groupedResults scenarioRoutes = Except.ok groups
      ∧ (entries groups).map Prod.fst
          = ((firstAppearance (leadingOrigins scenarioRoutes)).filter isArrayIndex).insertionSort
              (fun a b => indexValue a ≤ indexValue b)
            ++ (firstAppearance (leadingOrigins scenarioRoutes)).filter
                (fun k => !isArrayIndex k)
      ∧ ((∀ k ∈ leadingOrigins scenarioRoutes, isArrayIndex k = false) →
          (entries groups).map Prod.fst = firstAppearance (leadingOrigins scenarioRoutes)) :=
  entries_key_order scenarioRoutes (by decide) (by decide)

/-! ### The export text and its re-parsing -/

/-- A list without the separator is one piece. -/
theorem splitChars_of_not_mem (sep : Char) (l : List Char) (h : sep ∉ l) :
    splitChars sep l = [l] := by
  induction l with
  | nil => rfl
  | cons c cs ih =>
    have hc : ¬ c = sep := fun e => h (by simp [e])
    have hcs : sep ∉ cs := fun e => h (List.mem_cons_of_mem _ e)
    simp [splitChars, hc, ih hcs]

/-- Splitting peels off the piece before the first separator. -/
theorem splitChars_append_sep (sep : Char) (a rest : List Char) (h : sep ∉ a) :
    splitChars sep (a ++ sep :: rest) = a :: splitChars sep rest := by
  induction a with
  | nil => simp [splitChars]
  | cons c cs ih =>
    have hc : ¬ c = sep := fun e => h (by simp [e])
    have hcs : sep ∉ cs := fun e => h (List.mem_cons_of_mem _ e)
    simp [splitChars, hc, ih hcs]

/-- Joining two or more texts. -/
theorem joinWith_cons_cons (sep a b : String) (rest : List String) :
    joinWith sep (a :: b :: rest) = a ++ sep ++ joinWith sep (b :: rest) := rfl

/-- Splitting undoes joining when no text holds the separator. -/
theorem splitText_joinWith (sep : String) (c : Char) (hsep : sep.data = [c])
    (ls : List String) (hne : ls ≠ []) (hfree : ∀ l ∈ ls, c ∉ l.data) :
    splitText c (joinWith sep ls) = ls := by
  induction ls with
  | nil => exact absurd rfl hne
  | cons a rest ih =>
    cases rest with
    | nil =>
      have ha := hfree a (List.mem_cons_self _ _)
      simp [splitText, joinWith, splitChars_of_not_mem c a.data ha]
    | cons b rest =>
      have ha := hfree a (List.mem_cons_self _ _)
      have ih' := ih (by simp) (fun l hl => hfree l (List.mem_cons_of_mem _ hl))
      simp only [splitText] at ih' ⊢
      rw [joinWith_cons_cons, String.data_append, String.data_append, hsep,
        List.append_assoc, List.singleton_append, splitChars_append_sep c _ _ ha,
        List.map_cons, ih']

/-- A plain text holds neither separator. -/
theorem isPlainText_iff (t : String) :
    isPlainText t = true ↔ ',' ∉ t.data ∧ '\n' ∉ t.data := by
  simp [isPlainText]

/-- A character of a joined text comes from the separator or from one of the texts. -/
theorem mem_joinWith_data (sep : String) (x : Char) (ls : List String)
    (h : x ∈ (joinWith sep ls).data) : x ∈ sep.data ∨ ∃ l ∈ ls, x ∈ l.data := by
  induction ls with
  | nil => simp [joinWith] at h
  | cons a rest ih =>
    cases rest with
    | nil =>
      simp only [joinWith] at h
      exact Or.inr ⟨a, List.mem_cons_self _ _, h⟩
    | cons b rest =>
      rw [joinWith_cons_cons, String.data_append, String.data_append, List.mem_append,
        List.mem_append] at h
      rcases h with (h | h) | h
      · exact Or.inr ⟨a, List.mem_cons_self _ _, h⟩
      · exact Or.inl h
      · rcases ih h with h' | ⟨l, hl, hx⟩
        · exact Or.inl h'
        · exact Or.inr ⟨l, List.mem_cons_of_mem _ hl, hx⟩

/-- The texts of a data row. -/
theorem dataRow_texts (k : String) (stop : Stop) :
    (dataRow k stop).map JSVal.joinText
      = [k, stop.to_store.joinText, stop.item.joinText, stop.units.joinText,
         stop.distance.joinText, stop.cost.joinText, stop.time.joinText] := rfl

/-- The texts of a data row are plain when the key and the stop are. -/
theorem dataRow_texts_plain (k : String) (stop : Stop) (hk : isPlainText k = true)
    (hs : stop.isPlain = true) :
    ∀ t ∈ (dataRow k stop).map JSVal.joinText, isPlainText t = true := by
  simp only [Stop.isPlain, Bool.and_eq_true] at hs
  obtain ⟨⟨⟨⟨⟨h1, h2⟩, h3⟩, h4⟩, h5⟩, h6⟩ := hs
  intro t ht
  rw [dataRow_texts] at ht
  simp only [List.mem_cons, List.mem_singleton, List.not_mem_nil, or_false] at ht
  rcases ht with rfl | rfl | rfl | rfl | rfl | rfl | rfl <;> assumption

/-- Splitting a data row of plain texts on commas gives back its seven texts. -/
theorem splitText_rowText_dataRow (k : String) (stop : Stop) (hk : isPlainText k = true)
    (hs : stop.isPlain = true) :
    splitText ',' (rowText (dataRow k stop)) = (dataRow k stop).map JSVal.joinText := by
  apply splitText_joinWith "," ',' rfl
  · rw [dataRow_texts]; simp
  · intro l hl
    exact ((isPlainText_iff l).1 (dataRow_texts_plain k stop hk hs l hl)).1

/-- The text of a marker row. -/
theorem rowText_marker (k : String) : rowText [JSVal.str ("FROM " ++ k)] = "FROM " ++ k := rfl

/-- The text of the empty row. -/
theorem rowText_blank : rowText [] = "" := rfl

/-- The text of a data row starts with the key and a comma. -/
theorem rowText_dataRow (k : String) (stop : Stop) :
    rowText (dataRow k stop)
      = k ++ "," ++ joinWith "," [stop.to_store.joinText, stop.item.joinText,
          stop.units.joinText, stop.distance.joinText, stop.cost.joinText,
          stop.time.joinText] := rfl

/-- A marker row is recognised. -/
theorem isMarkerRow_marker (k : String) : isMarkerRow ("FROM " ++ k) = true := by
  simp [isMarkerRow, String.data_append]

/-- A data row is not taken for a marker row unless its key starts like one. -/
theorem isMarkerRow_dataRow (k : String) (stop : Stop) (hk : isMarkerRow k = false) :
    isMarkerRow (rowText (dataRow k stop)) = false := by
  simp only [isMarkerRow, decide_eq_false_iff_not] at hk ⊢
  rw [rowText_dataRow, String.data_append, String.data_append, List.append_assoc]
  have hcomma : ("," : String).data = [','] := rfl
  rw [hcomma, List.singleton_append, List.take_append_eq_append_take]
  intro h
  by_cases hlen : 5 ≤ k.data.length
  · have h0 : 5 - k.data.length = 0 := by omega
    rw [h0, List.take_zero, List.append_nil] at h
    exact hk h
  · obtain ⟨n, hn⟩ : ∃ n, 5 - k.data.length = n + 1 := ⟨4 - k.data.length, by omega⟩
    rw [hn, List.take_succ_cons] at h
    have hmem : ',' ∈ ['F', 'R', 'O', 'M', ' '] := by
      rw [← h]
      simp
    simp at hmem

/-- A data row is not blank. -/
theorem rowText_dataRow_ne_empty (k : String) (stop : Stop) :
    rowText (dataRow k stop) ≠ "" := by
  intro h
  have hd := congrArg String.data h
  rw [rowText_dataRow, String.data_append, String.data_append] at hd
  have hcomma : ("," : String).data = [','] := rfl
  rw [hcomma] at hd
  have : (',' : Char) ∈ ("" : String).data := by
    rw [← hd]; simp
  simp at this

/-- What a plain group is, spelled out. -/
theorem isPlainGroup_iff (e : String × List Stop) :
    isPlainGroup e = true ↔
      isPlainText e.1 = true ∧ isMarkerRow e.1 = false
        ∧ ∀ stop ∈ e.2, stop.from_store.toStr = e.1 ∧ stop.isPlain = true := by
  simp [isPlainGroup, and_assoc]

/-- The lines one group contributes: only the data rows survive the filter. -/
theorem filter_groupRows (k : String) (stops : List Stop) (hk : isMarkerRow k = false) :
    ((groupRows k stops).map rowText).filter
        (fun line => decide (line ≠ "") && !isMarkerRow line)
      = stops.map (fun stop => rowText (dataRow k stop)) := by
  simp only [groupRows, List.map_cons, List.map_append, List.map_map, List.map_nil,
    rowText_marker, rowText_blank]
  rw [List.filter_cons, if_neg (by simp [isMarkerRow_marker]), List.filter_append]
  have hblank : List.filter (fun line => decide (line ≠ "") && !isMarkerRow line) [""] = [] := by
    simp
  rw [hblank, List.append_nil]
  have hkeep : ∀ line ∈ List.map (rowText ∘ dataRow k) stops,
      (decide (line ≠ "") && !isMarkerRow line) = true := by
    intro line hline
    simp only [List.mem_map, Function.comp_apply] at hline
    obtain ⟨stop, _, rfl⟩ := hline
    simp [rowText_dataRow_ne_empty, isMarkerRow_dataRow k stop hk]
  rw [List.filter_eq_self.2 hkeep]
  rfl

/-- Of all rows, only the data rows survive the filter. -/
theorem filter_rows (es : List (String × List Stop))
    (hes : ∀ e ∈ es, isMarkerRow e.1 = false) :
    ((rows es).map rowText).filter (fun line => decide (line ≠ "") && !isMarkerRow line)
      = es.flatMap (fun e => e.2.map (fun stop => rowText (dataRow e.1 stop))) := by
  induction es with
  | nil => rfl
  | cons e es ih =>
    have ih' := ih (fun x hx => hes x (List.mem_cons_of_mem _ hx))
    simp only [rows, List.flatMap_cons, List.map_append, List.filter_append] at ih' ⊢
    rw [filter_groupRows e.1 e.2 (hes e (List.mem_cons_self _ _)), ih']

/-- A row of texts without newline has a text without newline. -/
theorem newline_not_mem_rowText (r : Row)
    (h : ∀ t ∈ r.map JSVal.joinText, '\n' ∉ t.data) : '\n' ∉ (rowText r).data := by
  intro hmem
  rcases mem_joinWith_data "," '\n' _ hmem with h' | ⟨l, hl, hx⟩
  · have hcomma : ("," : String).data = [','] := rfl
    rw [hcomma] at h'
    simp at h'
  · exact h l hl hx

/-- The lines of a plain group hold no newline. -/
theorem newline_not_mem_groupRows (e : String × List Stop) (he : isPlainGroup e = true) :
    ∀ line ∈ (groupRows e.1 e.2).map rowText, '\n' ∉ line.data := by
  obtain ⟨hk, _, hstops⟩ := (isPlainGroup_iff e).1 he
  intro line hline
  simp only [groupRows, List.map_cons, List.map_append, List.map_map, List.map_nil,
    rowText_marker, rowText_blank, List.mem_cons, List.mem_append, List.mem_map,
    Function.comp_apply, List.mem_singleton, List.not_mem_nil, or_false] at hline
  rcases hline with rfl | ⟨stop, hstop, rfl⟩ | rfl
  · rw [String.data_append, List.mem_append, not_or]
    exact ⟨by decide, ((isPlainText_iff e.1).1 hk).2⟩
  · apply newline_not_mem_rowText
    intro t ht
    exact ((isPlainText_iff t).1 (dataRow_texts_plain e.1 stop hk (hstops stop hstop).2 t ht)).2
  · simp

/-- The lines of the export of plain groups hold no newline. -/
theorem newline_not_mem_exportLines (es : List (String × List Stop))
    (hes : ∀ e ∈ es, isPlainGroup e = true) :
    ∀ line ∈ exportLines es, '\n' ∉ line.data := by
  intro line hline
  simp only [exportLines, List.mem_cons] at hline
  rcases hline with rfl | hline
  · decide
  · simp only [rows, List.map_flatMap, List.mem_flatMap] at hline
    obtain ⟨e, he, hl⟩ := hline
    exact newline_not_mem_groupRows e (hes e he) line hl

/-- Splitting the export of plain groups on newlines gives back its lines. -/
theorem splitText_exportText (es : List (String × List Stop))
    (hes : ∀ e ∈ es, isPlainGroup e = true) :
    splitText '\n' (exportText es) = exportLines es := by
  apply splitText_joinWith "\n" '\n' rfl
  · simp [exportLines]
  · exact newline_not_mem_exportLines es hes

/-- What the re-parser returns on the export of plain groups: the texts of the data
rows, group after group. -/
theorem reparse_exportText (es : List (String × List Stop))
    (hes : ∀ e ∈ es, isPlainGroup e = true) :
    reparse (exportText es)
      = es.flatMap (fun e => e.2.map (fun stop => (dataRow e.1 stop).map JSVal.joinText)) := by
  have hmark : ∀ e ∈ es, isMarkerRow e.1 = false :=
    fun e he => ((isPlainGroup_iff e).1 (hes e he)).2.1
  rw [reparse, splitText_exportText es hes]
  simp only [exportLines, List.drop_succ_cons, List.drop_zero]
  rw [filter_rows es hmark, List.map_flatMap]
  apply List.flatMap_congr
  intro e he
  obtain ⟨hk, _, hstops⟩ := (isPlainGroup_iff e).1 (hes e he)
  rw [List.map_map]
  apply List.map_congr_left
  intro stop hstop
  exact splitText_rowText_dataRow e.1 stop hk (hstops stop hstop).2

/-- Selecting the rows of a group distributes over concatenation. -/
theorem recordsOf_append (k : String) (a b : List (List String)) :
    recordsOf k (a ++ b) = recordsOf k a ++ recordsOf k b := by
  simp [recordsOf]

/-- All data rows of the group `k` start with `k`. -/
theorem recordsOf_group_same (k : String) (stops : List Stop) :
    recordsOf k (stops.map (fun stop => (dataRow k stop).map JSVal.joinText))
      = stops.map (fun stop => (dataRow k stop).map JSVal.joinText) := by
  rw [recordsOf, List.filter_eq_self]
  intro fields hf
  simp only [List.mem_map] at hf
  obtain ⟨stop, _, rfl⟩ := hf
  simp [dataRow_texts]

/-- No data row of another group starts with `k`. -/
theorem recordsOf_group_other (k k' : String) (stops : List Stop) (h : k' ≠ k) :
    recordsOf k (stops.map (fun stop => (dataRow k' stop).map JSVal.joinText)) = [] := by
  rw [recordsOf, List.filter_eq_nil_iff]
  intro fields hf
  simp only [List.mem_map] at hf
  obtain ⟨stop, _, rfl⟩ := hf
  simp [dataRow_texts, h]

/-- A key that is not present has no rows. -/
theorem recordsOf_absent (k : String) (es : List (String × List Stop))
    (h : k ∉ es.map Prod.fst) :
    recordsOf k (es.flatMap
      (fun e => e.2.map (fun stop => (dataRow e.1 stop).map JSVal.joinText))) = [] := by
  induction es with
  | nil => rfl
  | cons x xs ih =>
    simp only [List.map_cons, List.mem_cons, not_or] at h
    rw [List.flatMap_cons, recordsOf_append, recordsOf_group_other k x.1 x.2 (Ne.symm h.1),
      ih h.2, List.nil_append]

/-- With distinct keys, the rows selected for a group are its own data rows. -/
theorem recordsOf_present (es : List (String × List Stop))
    (hnd : (es.map Prod.fst).Nodup) (e : String × List Stop) (he : e ∈ es) :
    recordsOf e.1 (es.flatMap
        (fun e' => e'.2.map (fun stop => (dataRow e'.1 stop).map JSVal.joinText)))
      = e.2.map (fun stop => (dataRow e.1 stop).map JSVal.joinText) := by
  induction es with
  | nil => cases he
  | cons x xs ih =>
    simp only [List.map_cons, List.nodup_cons] at hnd
    rw [List.flatMap_cons, recordsOf_append]
    rcases List.mem_cons.1 he with rfl | hmem
    · rw [recordsOf_group_same, recordsOf_absent e.1 xs hnd.1, List.append_nil]
    · have hne : x.1 ≠ e.1 := by
        intro heq
        apply hnd.1
        rw [heq]
        exact List.mem_map_of_mem _ hmem
      rw [recordsOf_group_other e.1 x.1 x.2 hne, ih hnd.2 hmem, List.nil_append]

/-- Enumeration reorders the own keys and loses none. -/
theorem ownKeys_perm (groups : Groups) : (ownKeys groups).Perm (groups.map Prod.fst) := by
  unfold ownKeys
  exact ((List.perm_insertionSort _ _).append_right _).trans (List.filter_append_perm _ _)

/-- With distinct keys, every property is found under its key. -/
theorem lookup_of_mem (groups : Groups) (hnd : (groups.map Prod.fst).Nodup)
    (e : String × List Stop) (he : e ∈ groups) : groups.lookup e.1 = some e.2 := by
  induction groups with
  | nil => cases he
  | cons x xs ih =>
    obtain ⟨a, b⟩ := x
    simp only [List.map_cons, List.nodup_cons] at hnd
    rcases List.mem_cons.1 he with rfl | hmem
    · simp
    · have hne : (e.1 == a) = false := by
        have : e.1 ≠ a := by
          intro heq
          apply hnd.1
          rw [← heq]
          exact List.mem_map_of_mem _ hmem
        simpa using this
      rw [List.lookup_cons, hne]
      exact ih hnd.2 hmem

/-- What a lookup finds is a property of the object. -/
theorem mem_of_lookup (groups : Groups) (k : String) (v : List Stop)
    (h : groups.lookup k = some v) : (k, v) ∈ groups := by
  induction groups with
  | nil => simp at h
  | cons x xs ih =>
    obtain ⟨a, b⟩ := x
    rw [List.lookup_cons] at h
    by_cases hk : k = a
    · subst hk
      simp at h
      subst h
      exact List.mem_cons_self _ _
    · have hne : (k == a) = false := by simpa using hk
      rw [hne] at h
      exact List.mem_cons_of_mem _ (ih h)

/-- The keys of the entries are the own keys in enumeration order. -/
theorem entries_keys (groups : Groups) : (entries groups).map Prod.fst = ownKeys groups := by
  simp [entries, Function.comp_def]

/-- With distinct keys, every property is among the entries. -/
theorem mem_entries_of_mem (groups : Groups) (hnd : (groups.map Prod.fst).Nodup)
    (e : String × List Stop) (he : e ∈ groups) : e ∈ entries groups := by
  have hk : e.1 ∈ ownKeys groups :=
    (ownKeys_perm groups).mem_iff.2 (List.mem_map_of_mem _ he)
  simp only [entries, List.mem_map]
  exact ⟨e.1, hk, by rw [lookup_of_mem groups hnd e he]; rfl⟩

/-- Every entry is a property of the object. -/
theorem mem_of_mem_entries (groups : Groups) (e : String × List Stop)
    (he : e ∈ entries groups) : e ∈ groups := by
  simp only [entries, List.mem_map] at he
  obtain ⟨k, hk, rfl⟩ := he
  have hk' : k ∈ groups.map Prod.fst := (ownKeys_perm groups).mem_iff.1 hk
  rw [← lookup_isSome_iff] at hk'
  cases hl : groups.lookup k with
  | none => rw [hl] at hk'; cases hk'
  | some v => exact mem_of_lookup groups k v hl

/-- Claim C5, as stated, fails: for the group `A` holding one stop whose `to_store`
is `B,C`, the data row is written without quoting, and re-parsing it gives one row of
eight fields, not the seven texts of the stop. -/
theorem comma_in_field_breaks_round_trip :
    reparse (exportText (entries [("A", [stopWithComma])]))
        = [["A", "B", "C", "X", "5", "10", "50", "15"]]
      ∧ [stopWithComma].map Stop.fieldTexts = [["A", "B,C", "X", "5", "10", "50", "15"]] := by
  decide

/-- Claim C5, amended: for every grouped result whose keys are distinct, plain (no
comma, no newline) and do not start like a marker row, and whose stops come from the
store of their key and have plain fields, re-parsing the exported text gives back,
for every group, the seven texts of its stops, in order and hence as a multiset. -/
theorem export_round_trip (groups : Groups) (hkeys : (groups.map Prod.fst).Nodup)
    (hplain : ∀ e ∈ groups, isPlainGroup e = true) :
    ∀ e ∈ groups,
      recordsOf e.1 (reparse (exportText (entries groups))) = e.2.map Stop.fieldTexts := by
  intro e he
  have hes : ∀ x ∈ entries groups, isPlainGroup x = true :=
    fun x hx => hplain x (mem_of_mem_entries groups x hx)
  have hnd : ((entries groups).map Prod.fst).Nodup := by
    rw [entries_keys]
    exact (ownKeys_perm groups).nodup_iff.2 hkeys
  rw [reparse_exportText (entries groups) hes,
    recordsOf_present (entries groups) hnd e (mem_entries_of_mem groups hkeys e he)]
  obtain ⟨_, _, hstops⟩ := (isPlainGroup_iff e).1 (hplain e he)
  apply List.map_congr_left
  intro stop hstop
  rw [dataRow_texts, Stop.fieldTexts, (hstops stop hstop).1]

/-- Witness of C5 on the grouped result of the scenario of section 8. -/
theorem export_round_trip_witness :
    recordsOf "A" (reparse (exportText (entries [("A", [stopAB, stopAC])])))
      = [stopAB, stopAC].map Stop.fieldTexts :=
  export_round_trip [("A", [stopAB, stopAC])] (by decide) (by decide)
    ("A", [stopAB, stopAC]) (List.mem_cons_self _ _)

/-- The lines one group contributes: the marker row, a data row per stop and a blank
row. -/
theorem groupRows_texts (k : String) (stops : List Stop) :
    (groupRows k stops).map rowText
      = ("FROM " ++ k) :: (stops.map (fun stop => rowText (dataRow k stop)) ++ [""]) := by
  simp [groupRows, rowText_marker, rowText_blank, Function.comp_def]

/-- The number of rows pushed: for each group, its stops and two more. -/
theorem length_rows (es : List (String × List Stop)) :
    (rows es).length = (es.map (fun e => e.2.length + 2)).sum := by
  induction es with
  | nil => rfl
  | cons e es ih =>
    simp only [rows, List.flatMap_cons, List.length_append, List.map_cons, List.sum_cons] at ih ⊢
    rw [ih]
    simp only [groupRows, List.length_cons, List.length_append, List.length_map,
      List.length_singleton, List.length_nil]

/-- The export of a list on which the reduce does not throw: for every non-empty
route list without an inherited key, `handleExport` downloads the header row followed,
for each entry in enumeration order, by the marker row, a data row per stop and a
blank row, joined by newlines; the number of rows is one plus, for each group, its
number of stops plus two. -/
theorem handleExport_serializes (results : List Route) (hne : results ≠ [])
    (hnames : ∀ r ∈ results, r.key ∉ objectPrototypeKeys) :
    ∃ groups, groupedResults results = Except.ok groups
      ∧ handleExport results
          = ExportResult.downloaded "grouped_transport_optimization.csv"
              (joinWith "\n" (exportLines (entries groups)))
      ∧ exportLines (entries groups)
          = "From Store,To Store,Item,Units,Distance (km),Cost,Time (mins)"
            :: (entries groups).flatMap (fun e =>
                ("FROM " ++ e.1)
                  :: (e.2.map (fun stop => rowText (dataRow e.1 stop)) ++ [""]))
      ∧ (exportLines (entries groups)).length
          = 1 + ((entries groups).map (fun e => e.2.length + 2)).sum := by
  obtain ⟨groups, hg⟩ := reduceFrom_ok results [] hnames
  have hg' : groupedResults results = Except.ok groups := hg
  refine ⟨groups, hg, ?_, ?_, ?_⟩
  · have hlen : ¬ results.length = 0 := by
      intro h
      exact hne (List.length_eq_zero.1 h)
    simp only [handleExport, if_neg hlen, hg', exportText]
  · simp only [exportLines, rows, List.map_flatMap, groupRows_texts]
    rfl
  · simp only [exportLines, List.length_cons, List.length_map, length_rows]
    omega

/-- The scenario of section 8 of the specification: two single-stop routes from `A`
export as the header row, one marker row `FROM A`, the two data rows in list order
and a blank row. -/
theorem handleExport_scenario :
    handleExport scenarioRoutes
      = ExportResult.downloaded "grouped_transport_optimization.csv"
          ("From Store,To Store,Item,Units,Distance (km),Cost,Time (mins)\n"
            ++ "FROM A\nA,B,X,5,10,50,15\nA,C,Y,2,4,8,6\n") := by
  decide

/-! ### Zero-stop routes and the export guard -/

/-- Claim C3 (defect of the code): a route without stops is not skipped.  On the list
holding a zero-stop route and a one-stop route from `A`, the reduce creates the own
property `undefined` with an empty array, so the object differs from the grouping of
the list without the zero-stop route, and the export carries a marker row
`FROM undefined`. -/
theorem zero_stop_route_adds_undefined_group :
    groupedResults [{ stops := [] }, { stops := [stopAB] }]
        = Except.ok [("undefined", []), ("A", [stopAB])]
      ∧ groupedResults (List.filter (fun r => decide (r.stops ≠ []))
          [{ stops := [] }, { stops := [stopAB] }])
        = Except.ok [("A", [stopAB])]
      ∧ handleExport [{ stops := [] }, { stops := [stopAB] }]
        = ExportResult.downloaded "grouped_transport_optimization.csv"
            ("From Store,To Store,Item,Units,Distance (km),Cost,Time (mins)\n"
              ++ "FROM undefined\n\nFROM A\nA,B,X,5,10,50,15\n") := by
  decide

/-- Claim C4 (defect of the code): for the one-route list whose leading stop comes
from a store named `constructor`, the lookup `groups[fromStore]` finds the inherited
`Object.prototype.constructor`, no array is created, the call of `push` throws a
`TypeError`, and `handleExport` serializes no text. -/
theorem export_throws_on_inherited_name :
    handleExport [{ stops := [sampleStop "constructor" "B" "X" 5 10 50 15] }]
      = ExportResult.threw JSError.typeError := by
  decide

/-- Claim C6, as stated, fails: the list holding one zero-stop route contributes no
stop, yet `handleExport` does not decline; it downloads a file made of the header
row, the marker row `FROM undefined` and a blank row, without any data row. -/
theorem export_of_zero_stop_list_not_declined :
    handleExport [{ stops := [] }]
      = ExportResult.downloaded "grouped_transport_optimization.csv"
          "From Store,To Store,Item,Units,Distance (km),Cost,Time (mins)\nFROM undefined\n" := by
  decide

/-- Claim C6, amended: `handleExport` declines with the alert `No results to export.`
exactly when the `results` array holds no route; the guard counts routes, not
stops. -/
theorem export_declines_iff_no_route (results : List Route) :
    handleExport results = ExportResult.alerted "No results to export." ↔ results = [] := by
  constructor
  · intro h
    cases results with
    | nil => rfl
    | cons r rest =>
      simp only [handleExport, List.length_cons, Nat.succ_ne_zero, if_false] at h
      cases hg : groupedResults (r :: rest) <;> rw [hg] at h <;> cases h
  · intro h
    subst h
    rfl

/-! ### `handleOptimize` -/

/-- With a file picked, `submit` clears the cells and posts the form. -/
theorem posts_of_file (s : State) (file : CsvFile) (hfile : s.selectedFile = some file) :
    submit s = Submission.posted
      { s with loading := true, error := JSVal.str "", results := Body.array [] }
      { stock_file := file, cost_rate := s.costRate, min_quantity := s.minThreshold } := by
  simp [submit, hfile]

/-- With a file picked, a run of `handleOptimize` is `settle` applied to the cleared
state. -/
theorem handleOptimize_of_file (s : State) (file : CsvFile) (outcome : PostOutcome)
    (hfile : s.selectedFile = some file) :
    handleOptimize s outcome
      = settle { s with loading := true, error := JSVal.str "", results := Body.array [] }
          outcome := by
  simp [handleOptimize, submit, hfile]

/-- Claim C7, as stated, fails for the empty message: the body `{error: ""}` is
falsy under `if (res.data.error)`, so the run ends with an empty `error` and the body
itself stored in `results`. -/
theorem empty_error_message_stored_as_results :
    handleOptimize pickedState (PostOutcome.resolved (Body.object (JSVal.str "")))
      = { pickedState with results := Body.object (JSVal.str "") } := by
  decide

/-- Claim C7, amended: for every non-empty message `m`, a response whose `error`
field is `m` ends the run with `error = m`, `results = []` and `loading = false`;
the body is not stored. -/
theorem service_error_surfaced_verbatim (s : State) (file : CsvFile) (m : String)
    (hfile : s.selectedFile = some file) (hm : m ≠ "") :
    handleOptimize s (PostOutcome.resolved (Body.object (JSVal.str m)))
      = { s with error := JSVal.str m, results := Body.array [], loading := false } := by
  rw [handleOptimize_of_file s file _ hfile]
  simp [settle, Body.errorField, JSVal.truthy, hm]

/-- Witness of C7 at the message `invalid file`. -/
theorem service_error_surfaced_verbatim_witness :
    handleOptimize pickedState (PostOutcome.resolved (Body.object (JSVal.str "invalid file")))
      = { pickedState with error := JSVal.str "invalid file", results := Body.array [],
                           loading := false } :=
  service_error_surfaced_verbatim pickedState { content := "sku,qty" } "invalid file" rfl
    (by decide)

/-- Claim C8, as stated, fails: with a file picked, `costRate = NaN` and
`minThreshold = -1` the request is not valid in the sense of the specification, yet
`handleOptimize` posts the form with both values. -/
theorem invalid_parameters_are_posted :
    specValidRequest { pickedState with costRate := JSNumber.nan,
                                        minThreshold := JSNumber.finite (-1) } = false
      ∧ submit { pickedState with costRate := JSNumber.nan,
                                  minThreshold := JSNumber.finite (-1) }
        = Submission.posted
            { pickedState with costRate := JSNumber.nan, minThreshold := JSNumber.finite (-1),
                               loading := true }
            { stock_file := { content := "sku,qty" }, cost_rate := JSNumber.nan,
              min_quantity := JSNumber.finite (-1) } := by
  decide

/-- Claim C8, amended: `handleOptimize` posts the form whenever a file is picked,
whatever `costRate` and `minThreshold` hold, and the form carries the two values
unchanged; only without a file does it alert and post nothing. -/
theorem posts_whenever_file_selected (s : State) :
    (∀ file, s.selectedFile = some file →
        submit s = Submission.posted
          { s with loading := true, error := JSVal.str "", results := Body.array [] }
          { stock_file := file, cost_rate := s.costRate, min_quantity := s.minThreshold })
      ∧ (s.selectedFile = none →
          submit s = Submission.alerted "Please select a .csv file first.") := by
  constructor
  · intro file hfile
    simp [submit, hfile]
  · intro hnone
    simp [submit, hnone]

/-- Witness of C8 at a picked file with `costRate = NaN`. -/
theorem posts_whenever_file_selected_witness :
    submit { pickedState with costRate := JSNumber.nan }
      = Submission.posted
          { pickedState with costRate := JSNumber.nan, loading := true }
          { stock_file := { content := "sku,qty" }, cost_rate := JSNumber.nan,
            min_quantity := JSNumber.finite 10 } :=
  (posts_whenever_file_selected { pickedState with costRate := JSNumber.nan }).1
    { content := "sku,qty" } rfl

/-- Claim C9, as stated, fails for a body that is a string: `res.data.error` is
`undefined`, the `else` branch stores the string in `results`, and `error` stays
empty. -/
theorem string_body_stored_as_results :
    handleOptimize pickedState (PostOutcome.resolved (Body.prim (JSVal.str "<html>")))
      = { pickedState with results := Body.prim (JSVal.str "<html>") } := by
  decide

/-- Claim C9, amended: when the call rejects, or resolves with a body that is `null`
or `undefined`, the run ends with `error = "Error optimizing transport."`,
`results = []` and `loading = false`. -/
theorem transport_failure_reported (s : State) (file : CsvFile) (outcome : PostOutcome)
    (hfile : s.selectedFile = some file)
    (hout : outcome = PostOutcome.rejected
      ∨ outcome = PostOutcome.resolved (Body.prim JSVal.null)
      ∨ outcome = PostOutcome.resolved (Body.prim JSVal.undefined)) :
    handleOptimize s outcome
      = { s with error := JSVal.str "Error optimizing transport.", results := Body.array [],
                 loading := false } := by
  rw [handleOptimize_of_file s file _ hfile]
  rcases hout with h | h | h <;> subst h <;> rfl

/-- Witness of C9 at a rejected call. -/
theorem transport_failure_reported_witness :
    handleOptimize pickedState PostOutcome.rejected
      = { pickedState with error := JSVal.str "Error optimizing transport.",
                           results := Body.array [], loading := false } :=
  transport_failure_reported pickedState { content := "sku,qty" } PostOutcome.rejected rfl
    (Or.inl rfl)

/-! ### The session-state invariant -/

/-- The initial state satisfies the invariant. -/
theorem sessionInv_initial : SessionInv initialState := by
  constructor
  · exact Or.inl rfl
  · intro h
    cases h

/-- The state in which the form is posted has `loading` set and the other two cells cleared. -/
theorem sessionInv_submit (s s1 : State) (form : FormData)
    (h : submit s = Submission.posted s1 form) :
    s1.loading = true ∧ s1.error = JSVal.str "" ∧ s1.results = Body.array [] := by
  unfold submit at h
  cases hsel : s.selectedFile with
  | none => rw [hsel] at h; cases h
  | some file =>
    rw [hsel] at h
    simp only [Submission.posted.injEq] at h
    obtain ⟨rfl, _⟩ := h
    exact ⟨rfl, rfl, rfl⟩

/-- After the `finally` block `loading` is false. -/
theorem settle_loading (s : State) (outcome : PostOutcome) :
    (settle s outcome).loading = false := rfl

/-- From a state without error, the run ends without error or without results. -/
theorem settle_exclusive (s : State) (outcome : PostOutcome)
    (herr : s.error.truthy = false) :
    (settle s outcome).error.truthy = false ∨ (settle s outcome).results = Body.array [] := by
  cases outcome with
  | rejected => exact Or.inr rfl
  | resolved data =>
    simp only [settle]
    cases hf : data.errorField with
    | error e => exact Or.inr rfl
    | ok e =>
      cases ht : e.truthy with
      | true => simp [ht]
      | false => simp [ht, herr]

/-- Every reachable state satisfies the invariant. -/
theorem reachable_sessionInv (s : State) (h : Reachable s) : SessionInv s := by
  induction h with
  | init => exact sessionInv_initial
  | costRateSet s v _ ih => exact ih
  | minThresholdSet s v _ ih => exact ih
  | fileSet s f _ ih => exact ih
  | posted s s1 form _ _ hsub _ =>
    obtain ⟨_, he, hr⟩ := sessionInv_submit s s1 form hsub
    have het : s1.error.truthy = false := by rw [he]; rfl
    exact ⟨Or.inl het, fun _ => ⟨het, hr⟩⟩
  | settled s outcome _ hload ih =>
    refine ⟨settle_exclusive s outcome (ih.2 hload).1, ?_⟩
    intro h
    rw [settle_loading] at h
    cases h

/-- A state that satisfies the invariant encodes exactly one session state. -/
theorem sessionInv_encodes (s : State) (h : SessionInv s) : ∃! p, encodes s p := by
  obtain ⟨hex, hload⟩ := h
  cases hl : s.loading with
  | true =>
    obtain ⟨he, hr⟩ := hload hl
    refine ⟨Phase.submitting, ⟨hl, he, hr⟩, ?_⟩
    intro p hp
    cases p <;> simp_all [encodes]
  | false =>
    cases he : s.error.truthy with
    | true =>
      have hr : s.results = Body.array [] := by
        rcases hex with h | h
        · rw [he] at h; cases h
        · exact h
      refine ⟨Phase.failure, ⟨hl, he, hr⟩, ?_⟩
      intro p hp
      cases p <;> simp_all [encodes]
    | false =>
      by_cases hr : s.results = Body.array []
      · refine ⟨Phase.idle, ⟨hl, he, hr⟩, ?_⟩
        intro p hp
        cases p <;> simp_all [encodes]
      · refine ⟨Phase.success, ⟨hl, he, hr⟩, ?_⟩
        intro p hp
        cases p <;> simp_all [encodes]

/-- Claim C10: with a file picked, `handleOptimize` first enters the state with
`loading = true`, `error = ""` and `results = []`, whatever the cells held before;
for every outcome of the call the run ends with `loading = false` and never with a
truthy `error` together with a non-empty `results`; and every state reachable from
the initial one with at most one call outstanding encodes exactly one of the four
session states. -/
theorem session_state_invariant :
    (∀ (s : State) (file : CsvFile), s.selectedFile = some file →
        ∃ s1 form, submit s = Submission.posted s1 form ∧ s1.loading = true
          ∧ s1.error = JSVal.str "" ∧ s1.results = Body.array [])
      ∧ (∀ (s : State) (file : CsvFile) (outcome : PostOutcome), s.selectedFile = some file →
          (handleOptimize s outcome).loading = false
            ∧ ¬ ((handleOptimize s outcome).error.truthy = true
                  ∧ (handleOptimize s outcome).results ≠ Body.array []))
      ∧ (∀ s : State, Reachable s → ∃! p, encodes s p) := by
  refine ⟨?_, ?_, ?_⟩
  · intro s file hfile
    refine ⟨_, _, (posts_of_file s file hfile), rfl, rfl, rfl⟩
  · intro s file outcome hfile
    rw [handleOptimize_of_file s file outcome hfile]
    refine ⟨rfl, ?_⟩
    rintro ⟨ht, hr⟩
    rcases settle_exclusive
      { s with loading := true, error := JSVal.str "", results := Body.array [] } outcome rfl
      with h | h
    · rw [ht] at h; cases h
    · exact hr h
  · intro s hs
    exact sessionInv_encodes s (reachable_sessionInv s hs)

/-- Witness of C10: a failed run from the picked state is reachable and encodes the
failure state only. -/
theorem session_state_invariant_witness :
    ∃! p, encodes (settle { pickedState with loading := true } PostOutcome.rejected) p :=
  session_state_invariant.2.2 _
    (Reachable.settled _ PostOutcome.rejected
      (Reachable.posted pickedState _ _
        (Reachable.fileSet initialState (some { content := "sku,qty" }) Reachable.init)
        rfl (posts_of_file pickedState { content := "sku,qty" } rfl))
      rfl)

end TransportOptimization
